import Mathlib

/-!
Verification of the naia networking library's handshake manager, message
receivers, client-side socket receivers, and HTTP session front-end, against
its natural-language specification.

The bit codec and some auxiliary containers (CacheMap, StandardHeader,
MessageContainer, Connection) live in crates whose sources are not part of
the scanned excerpt; those are modelled from the spec, and each such
definition says so in its doc comment.  Everything else is a direct
translation of the Rust source.
-/

namespace Naia

/-! ## Bit codec

Modelled from the spec: §4.1 "Bit codec" — bit-level reads and writes over a
byte buffer; little-endian at byte boundaries; length-prefixed byte
sequences use a varint length; decoders fail (rather than read past the end)
on truncated input.  The stream is modelled as a `List Bool` of bits,
least-significant bit first, which is byte-little-endian when bytes are laid
out 8 bits at a time. -/

/-- Value of a bit string, least-significant bit first. -/
def bitsToNat : List Bool → Nat
  | [] => 0
  | b :: rest => (if b then 1 else 0) + 2 * bitsToNat rest

/-- Write `n` as `w` bits, least-significant first (value taken mod `2^w`). -/
def natBits : Nat → Nat → List Bool
  | 0, _ => []
  | w + 1, n => (n % 2 == 1) :: natBits w (n / 2)

/-- Read `w` bits from the stream, failing if fewer are available. -/
def readBits (w : Nat) (r : List Bool) : Option (Nat × List Bool) :=
  if w ≤ r.length then some (bitsToNat (r.take w), r.drop w) else none

/-- Modelled from the spec: `bool` serde is a single bit. -/
def deBool : List Bool → Option (Bool × List Bool)
  | [] => none
  | b :: rest => some (b, rest)

/-- Modelled from the spec: `u64` serde is 64 bits, little-endian. -/
def serU64 (t : Nat) : List Bool := natBits 64 t

/-- Modelled from the spec: `u64` deserialization. -/
def deU64 (r : List Bool) : Option (Nat × List Bool) := readBits 64 r

/-- The `k` little-endian bytes of `n` (as in Rust's `to_le_bytes`). -/
def leBytes : Nat → Nat → List Nat
  | 0, _ => []
  | k + 1, n => (n % 256) :: leBytes k (n / 256)

/-- Translation of `u64::to_le_bytes`: the 8 little-endian bytes of a 64-bit value. -/
def u64LeBytes (t : Nat) : List Nat := leBytes 8 t

/-- Modelled from the spec: varint (LEB128-style, 7 bits per group with a
continuation flag) used for length prefixes. -/
def varintSer (n : Nat) : List Bool :=
  if _h : n < 128 then
    false :: natBits 7 n
  else
    true :: (natBits 7 (n % 128) ++ varintSer (n / 128))
termination_by n
decreasing_by
  exact Nat.div_lt_self (by omega) (by omega)

/-- Modelled from the spec: varint deserialization. -/
def varintDe : List Bool → Option (Nat × List Bool)
  | [] => none
  | cont :: rest =>
    if 7 ≤ rest.length then
      if cont then
        match varintDe (rest.drop 7) with
        | none => none
        | some (hi, rest'') => some (bitsToNat (rest.take 7) + 128 * hi, rest'')
      else
        some (bitsToNat (rest.take 7), rest.drop 7)
    else
      none
termination_by r => r.length
decreasing_by
  simp only [List.length_drop, List.length_cons]
  omega

/-- Serialize a list of bytes, 8 bits each (no length prefix). -/
def serBytesRaw (l : List Nat) : List Bool := (l.map (natBits 8)).flatten

/-- Read exactly `k` bytes from the stream. -/
def deBytesFix : Nat → List Bool → Option (List Nat × List Bool)
  | 0, r => some ([], r)
  | k + 1, r =>
    match readBits 8 r with
    | none => none
    | some (b, r') =>
      match deBytesFix k r' with
      | none => none
      | some (bs, r'') => some (b :: bs, r'')

/-- Modelled from the spec: `Vec<u8>` serde is a varint length prefix
followed by the raw bytes. -/
def serByteVec (l : List Nat) : List Bool := varintSer l.length ++ serBytesRaw l

/-- Modelled from the spec: `Vec<u8>` deserialization. -/
def deByteVec (r : List Bool) : Option (List Nat × List Bool) :=
  match varintDe r with
  | none => none
  | some (len, r') => deBytesFix len r'

/-! ## Packet types and the standard header

Modelled from the spec: §3 "Packet type tag" (closed enumeration) and
§6 "Standard header is byte-aligned: 1 byte packet tag, 2 bytes local index,
2 bytes last remote index, 4 bytes remote ack bitfield". -/

inductive PacketType where
  | clientChallengeRequest
  | serverChallengeResponse
  | clientValidateRequest
  | serverValidateResponse
  | clientConnectRequest
  | serverConnectResponse
  | serverRejectResponse
  | data
  | heartbeat
  | ping
  | pong
  | disconnect
deriving DecidableEq

/-- Wire discriminator of a packet type tag. -/
def PacketType.toNat : PacketType → Nat
  | .clientChallengeRequest => 0
  | .serverChallengeResponse => 1
  | .clientValidateRequest => 2
  | .serverValidateResponse => 3
  | .clientConnectRequest => 4
  | .serverConnectResponse => 5
  | .serverRejectResponse => 6
  | .data => 7
  | .heartbeat => 8
  | .ping => 9
  | .pong => 10
  | .disconnect => 11

/-- Modelled from the spec: serialization of `StandardHeader::new(tag, li, ri, ack)`. -/
def standardHeaderBits (ptype : PacketType) (li ri ack : Nat) : List Bool :=
  natBits 8 ptype.toNat ++ natBits 16 li ++ natBits 16 ri ++ natBits 32 ack

/-! ## Handshake manager (src/server/src/connection/handshake_manager.rs)

Every definition below in this section is a direct translation of the Rust
source, except for `HmacKey` (the external `ring` crate: `sign` is
deterministic and `verify` recomputes the tag and compares), `CacheMap`
(modelled from the spec: "bounded LRU-like cache keyed by timestamp",
constructed `with_capacity(64)`; on insertion at capacity the oldest entry
is evicted) and the `HashMap`/`Connection` types (association list; the
only `Connection` field the handshake manager reads is `address`). -/

abbrev SocketAddr := Nat

abbrev Timestamp := Nat

/-- An HMAC key of the external `ring` crate: an abstract deterministic
signing function producing bytes.  `hmac::verify` recomputes the tag under
the key and compares it with the supplied one. -/
structure HmacKey where
  sign : List Nat → List Nat
  sign_byte : ∀ msg b, b ∈ sign msg → b < 256

/-- Verification, as `ring::hmac::verify` does it: recompute and compare. -/
def hmacVerify (k : HmacKey) (msg tag : List Nat) : Bool :=
  k.sign msg == tag

/-- Modelled from the spec: a bounded LRU-like cache keyed by timestamp;
inserting at capacity evicts the oldest entry. -/
structure CacheMap where
  entries : List (Timestamp × List Nat)
  capacity : Nat

def CacheMap.withCapacity (n : Nat) : CacheMap := ⟨[], n⟩

def CacheMap.containsKey (c : CacheMap) (k : Timestamp) : Bool :=
  c.entries.any (fun p => p.1 == k)

def CacheMap.get? (c : CacheMap) (k : Timestamp) : Option (List Nat) :=
  (c.entries.find? (fun p => p.1 == k)).map (fun p => p.2)

def CacheMap.insert (c : CacheMap) (k : Timestamp) (v : List Nat) : CacheMap :=
  { c with
    entries :=
      (if c.capacity ≤ c.entries.length then c.entries.drop 1 else c.entries) ++ [(k, v)] }

/-- The server's address→timestamp `HashMap`, as an association list. -/
abbrev AddrMap := List (SocketAddr × Timestamp)

def mapGet (m : AddrMap) (a : SocketAddr) : Option Timestamp :=
  (m.find? (fun p => p.1 == a)).map (fun p => p.2)

/-- Translation of `HashMap::insert`: overwrite an existing binding, otherwise append. -/
def mapInsert (m : AddrMap) (a : SocketAddr) (t : Timestamp) : AddrMap :=
  if m.any (fun p => p.1 == a) then
    m.map (fun p => if p.1 == a then (a, t) else p)
  else
    m ++ [(a, t)]

/-- Translation of `HashMap::remove`. -/
def mapRemove (m : AddrMap) (a : SocketAddr) : AddrMap :=
  m.filter (fun p => ¬(p.1 == a))

/-- The only field of `Connection<E>` the handshake manager reads. -/
structure Connection where
  address : SocketAddr

inductive HandshakeResult where
  | invalid
  | success
deriving DecidableEq

structure HandshakeManager where
  connection_hash_key : HmacKey
  address_to_timestamp_map : AddrMap
  timestamp_digest_map : CacheMap

namespace HandshakeManager

/-- Translation of `HandshakeManager::new` (the HMAC key is freshly generated from system
randomness; it is a parameter here). -/
def new (key : HmacKey) : HandshakeManager :=
  { connection_hash_key := key
    address_to_timestamp_map := []
    timestamp_digest_map := CacheMap.withCapacity 64 }

/-- Step 2 of Handshake: `write_challenge_response`.  Returns the written
`BitWriter` contents and the updated manager. -/
def write_challenge_response (self : HandshakeManager) (timestamp : Timestamp) :
    List Bool × HandshakeManager :=
  let w0 := standardHeaderBits .serverChallengeResponse 0 0 0 ++ serU64 timestamp
  let self' :=
    if self.timestamp_digest_map.containsKey timestamp then self
    else
      { self with
        timestamp_digest_map :=
          self.timestamp_digest_map.insert timestamp
            (self.connection_hash_key.sign (u64LeBytes timestamp)) }
  -- `get_unchecked`: the key is always present here
  let digest := (self'.timestamp_digest_map.get? timestamp).getD []
  (w0 ++ serByteVec digest, self')

/-- Step 1 of Handshake: `recv_challenge_request`.  `none` in the first
component models the `SerdeErr` result. -/
def recv_challenge_request (self : HandshakeManager) (reader : List Bool) :
    Option (List Bool) × HandshakeManager :=
  match deU64 reader with
  | none => (none, self)
  | some (timestamp, _) =>
    let (w, self') := self.write_challenge_response timestamp
    (some w, self')

/-- Translation of `timestamp_validate`: decode a timestamp and a digest, then verify the
digest is the HMAC of the timestamp's little-endian bytes. -/
def timestamp_validate (self : HandshakeManager) (reader : List Bool) :
    Option Timestamp :=
  match deU64 reader with
  | none => none
  | some (timestamp, r1) =>
    match deByteVec r1 with
    | none => none
    | some (digest_bytes, _) =>
      if hmacVerify self.connection_hash_key (u64LeBytes timestamp) digest_bytes then
        some timestamp
      else
        none

/-- Step 3 of Handshake: `recv_validate_request`. -/
def recv_validate_request (self : HandshakeManager) (address : SocketAddr)
    (reader : List Bool) : HandshakeResult × HandshakeManager :=
  match self.timestamp_validate reader with
  | none => (.invalid, self)
  | some timestamp =>
    (.success,
      { self with
        address_to_timestamp_map :=
          mapInsert self.address_to_timestamp_map address timestamp })

/-- Translation of `verify_disconnect_request`. -/
def verify_disconnect_request (self : HandshakeManager) (connection : Connection)
    (reader : List Bool) : Bool × HandshakeManager :=
  (match self.timestamp_validate reader with
   | some new_timestamp =>
     match mapGet self.address_to_timestamp_map connection.address with
     | some old_timestamp => old_timestamp == new_timestamp
     | none => false
   | none => false,
   self)

/-- Translation of `delete_user`. -/
def delete_user (self : HandshakeManager) (address : SocketAddr) : HandshakeManager :=
  { self with
    address_to_timestamp_map := mapRemove self.address_to_timestamp_map address }

end HandshakeManager

/-- Every cached digest is the genuine HMAC of its timestamp: an invariant
established by `new` (empty cache) and preserved by every operation, since
only `write_challenge_response` inserts, with the freshly signed digest. -/
def cacheWF (m : HandshakeManager) : Prop :=
  ∀ p ∈ m.timestamp_digest_map.entries,
    p.2 = m.connection_hash_key.sign (u64LeBytes p.1)

/-! ## Unordered unreliable receiver
(src/shared/src/messages/channels/receivers/unordered_unreliable_receiver.rs)

Direct translation.  `MessageContainer` is opaque (modelled as `Nat`), and
`message_kinds.read` — the external registry decode — is a parameter.
Rust's `todo!()` macro panics; panics are modelled by the `ROut.panicked`
outcome. -/

/-- Outcome of a Rust call that may return, fail with `SerdeErr`, or panic. -/
inductive ROut (α : Type) where
  | ok : α → ROut α
  | err : ROut α
  | panicked : ROut α
deriving DecidableEq

/-- Opaque `MessageContainer`. -/
abbrev Msg := Nat

structure UnorderedUnreliableReceiver where
  incoming_messages : List Msg
deriving DecidableEq

namespace UnorderedUnreliableReceiver

def new : UnorderedUnreliableReceiver := ⟨[]⟩

/-- Translation of `read_message`: just `message_kinds.read(reader, converter)`. -/
def read_message (readMsg : List Bool → Option (Msg × List Bool))
    (_self : UnorderedUnreliableReceiver) (reader : List Bool) :
    Option (Msg × List Bool) :=
  readMsg reader

/-- Translation of `recv_message`: the body is `todo!(); self.incoming_messages.push_back(message)`
— the `todo!()` panics unconditionally, so the push is never reached. -/
def recv_message (_self : UnorderedUnreliableReceiver) (_message : Msg) :
    ROut UnorderedUnreliableReceiver :=
  ROut.panicked

/-- Translation of `ChannelReceiver::receive_messages`: the body is
`todo!(); Vec::from(mem::take(&mut self.incoming_messages))` — the `todo!()`
panics unconditionally. -/
def receive_messages (_self : UnorderedUnreliableReceiver) :
    ROut (List Msg × UnorderedUnreliableReceiver) :=
  ROut.panicked

/-- Translation of `MessageChannelReceiver::read_messages`: loop reading a continue bit and
a message until the bit is false.  `fuel` bounds the loop (the decode
parameter is arbitrary, so the loop is not structurally terminating); fuel
exhaustion is reported as `err` and never occurs on the inputs considered. -/
def read_messages (readMsg : List Bool → Option (Msg × List Bool)) :
    Nat → UnorderedUnreliableReceiver → List Bool →
    ROut (UnorderedUnreliableReceiver × List Bool)
  | 0, _, _ => ROut.err
  | fuel + 1, self, reader =>
    match deBool reader with
    | none => ROut.err
    | some (channel_continue, r') =>
      if channel_continue then
        match read_message readMsg self r' with
        | none => ROut.err
        | some (message, r'') =>
          match recv_message self message with
          | ROut.ok self' => read_messages readMsg fuel self' r''
          | ROut.err => ROut.err
          | ROut.panicked => ROut.panicked
      else
        ROut.ok (self, r')

end UnorderedUnreliableReceiver

/-! ## wasm_bindgen IdentityReceiver
(src/socket/client/src/backends/wasm_bindgen/identity_receiver.rs)

Direct translation.  The `Arc<Mutex<Option<IdentityToken>>>` cell is
modelled as the receiver's state (single-threaded context, as the source's
own `expect` message states); `NaiaClientSocketError` never arises. -/

abbrev IdentityToken := String

abbrev NaiaClientSocketError := String

structure IdentityReceiverImpl where
  id_cell : Option IdentityToken
deriving DecidableEq

namespace IdentityReceiverImpl

def new : IdentityReceiverImpl := ⟨none⟩

/-- Translation of `send`: store the token in the cell (overwriting any previous one). -/
def send (_self : IdentityReceiverImpl) (id_token : IdentityToken) :
    IdentityReceiverImpl :=
  { id_cell := some id_token }

/-- Translation of `receive`: take the token out of the cell if present. -/
def receive (self : IdentityReceiverImpl) :
    Except NaiaClientSocketError (Option IdentityToken) × IdentityReceiverImpl :=
  match self.id_cell with
  | some token => (Except.ok (some token), { id_cell := none })
  | none => (Except.ok none, self)

end IdentityReceiverImpl

/-! ## wasm_bindgen PacketReceiver
(src/socket/client/src/backends/wasm_bindgen/packet_receiver.rs)

Direct translation.  The shared `Rc<RefCell<VecDeque<Box<[u8]>>>>` queue is
modelled as a list of payloads in the receiver state; `ServerAddr` is
opaque. -/

abbrev ServerAddr := Nat

structure PacketReceiverImpl where
  message_queue : List (List Nat)
  server_addr : ServerAddr
  last_payload : Option (List Nat)
deriving DecidableEq

namespace PacketReceiverImpl

def new (message_queue : List (List Nat)) (server_addr : ServerAddr) :
    PacketReceiverImpl :=
  { message_queue := message_queue, server_addr := server_addr, last_payload := none }

/-- Translation of `receive`: pop the front payload, if any. -/
def receive (self : PacketReceiverImpl) :
    Except NaiaClientSocketError (Option (List Nat)) × PacketReceiverImpl :=
  match self.message_queue with
  | [] => (Except.ok none, self)
  | payload :: rest =>
    (Except.ok (some payload),
      { self with message_queue := rest, last_payload := some payload })

/-- Repeatedly call `receive`, collecting the returned payloads (used to
state the FIFO-order property). -/
def drain : Nat → PacketReceiverImpl → List (List Nat)
  | 0, _ => []
  | n + 1, self =>
    match self.receive with
    | (Except.ok (some payload), self') => payload :: drain n self'
    | _ => []

end PacketReceiverImpl

/-! ## HTTP session front-end (src/socket/server/src/session.rs)

Direct translation of `serve`'s loop over the raw bytes of the request
stream.  The external `webrtc_unreliable::SessionEndpoint::http_session_request`
(together with the `RequestBuffer` line-stream plumbing that feeds it) is a
parameter mapping the collected body bytes to either a response or an error.
At every completed line `serve` runs `String::from_utf8(line).expect(..)`,
which panics on a non-UTF-8 line; the panic kills the task before anything
is written, and is modelled by the `ROut.panicked` outcome. -/

/-- The UTF-8 bytes of an ASCII string literal. -/
def strBytes (s : String) : List Nat := s.data.map Char.toNat

/-- A UTF-8 continuation byte (`0x80..=0xBF`). -/
def utf8Cont (b : Nat) : Bool := 128 ≤ b && b ≤ 191

/-- Validity of a byte sequence as UTF-8, exactly as `String::from_utf8`
checks it: ASCII;two-byte `0xC2..=0xDF`; three-byte `0xE0` (second byte
`0xA0..=0xBF`), `0xE1..=0xEC`/`0xEE..=0xEF`, `0xED` (second byte
`0x80..=0x9F`, excluding surrogates); four-byte `0xF0` (second byte
`0x90..=0xBF`), `0xF1..=0xF3`, `0xF4` (second byte `0x80..=0x8F`); each
followed by continuation bytes; everything else (`0x80..=0xC1`,
`0xF5..=0xFF`, truncated sequences) invalid. -/
def isValidUtf8 : List Nat → Bool
  | [] => true
  | b0 :: rest =>
    if b0 ≤ 127 then isValidUtf8 rest
    else if 194 ≤ b0 && b0 ≤ 223 then
      match rest with
      | b1 :: rest2 => utf8Cont b1 && isValidUtf8 rest2
      | [] => false
    else if 224 ≤ b0 && b0 ≤ 239 then
      match rest with
      | b1 :: b2 :: rest3 =>
        (if b0 = 224 then 160 ≤ b1 && b1 ≤ 191
         else if b0 = 237 then 128 ≤ b1 && b1 ≤ 159
         else utf8Cont b1) && (utf8Cont b2 && isValidUtf8 rest3)
      | _ => false
    else if 240 ≤ b0 && b0 ≤ 244 then
      match rest with
      | b1 :: b2 :: b3 :: rest4 =>
        (if b0 = 240 then 144 ≤ b1 && b1 ≤ 191
         else if b0 = 244 then 128 ≤ b1 && b1 ≤ 143
         else utf8Cont b1) && (utf8Cont b2 && (utf8Cont b3 && isValidUtf8 rest4))
      | _ => false
    else false

/-- ASCII case folding of one byte.  The source lowercases each completed
line with the external std's `str::to_lowercase` before the prefix test
against the ASCII literal `content-length: `; the full Unicode case table
is external and is modelled by its ASCII part. -/
def asciiLower (b : Nat) : Nat := if 65 ≤ b ∧ b ≤ 90 then b + 32 else b

/-- The bytes of the ASCII literal `content-length: `. -/
def contentLengthBytes : List Nat := strBytes "content-length: "

/-- The external session endpoint's response (`http::Response<String>`):
status code and reason as printed, header list, body — all as bytes. -/
structure HttpResponse where
  code : List Nat
  reason : List Nat
  headers : List (List Nat × List Nat)
  body : List Nat

/-- Translation of `http::HeaderMap::insert`: replace the value under the name if present,
otherwise append the pair. -/
def insertHeader (hs : List (List Nat × List Nat)) (name value : List Nat) :
    List (List Nat × List Nat) :=
  if hs.any (fun p => p.1 == name) then
    hs.map (fun p => if p.1 == name then (name, value) else p)
  else
    hs ++ [(name, value)]

/-- Translation of `response_header_to_vec` / `write_response_header`:
`HTTP/1.1 <code> <reason>\r\n` then each `name: value\r\n` then `\r\n`. -/
def responseHeaderToVec (r : HttpResponse) : List Nat :=
  (strBytes "HTTP/1.1 " ++ r.code ++ strBytes " " ++ r.reason ++ strBytes "\r\n") ++
    (r.headers.map (fun p => p.1 ++ strBytes ": " ++ p.2 ++ strBytes "\r\n")).flatten ++
    strBytes "\r\n"

/-- The literal `RESPONSE_BAD` bytes (a raw string beginning with a
newline, LF line endings). -/
def responseBad : List Nat :=
  strBytes "\nHTTP/1.1 404 NOT FOUND\nContent-Type: text/html\nContent-Length: 0\nAccess-Control-Allow-Origin: *\n"

/-- Translation of `usize::from_str`: optional leading `+`, then at least one ASCII digit
and nothing else; fails on overflow past `usize::MAX`. -/
def parseUsize (s : List Nat) : Option Nat :=
  let digits := match s with
    | 43 :: rest => rest
    | _ => s
  if digits ≠ [] ∧ digits.all (fun b => 48 ≤ b ∧ b ≤ 57) then
    let n := digits.foldl (fun acc b => acc * 10 + (b - 48)) 0
    if n < 2 ^ 64 then some n else none
  else
    none

/-- The mutable locals of `serve`'s read loop. -/
structure ServeState where
  headers_been_read : Bool
  content_length : Option Nat
  rtc_url_matched : Bool
  body : List Nat
  line : List Nat
deriving DecidableEq

def ServeState.init : ServeState :=
  { headers_been_read := false, content_length := none, rtc_url_matched := false,
    body := [], line := [] }

/-- Handling of one completed (and UTF-8-validated) line: the line is taken
and cleared, then matched against the content-length header (ASCII-folded
prefix test, byte-indexed `split_at(16)`), the blank separator, or the
configured `POST /<rtc_endpoint_path>` prefix (`str::starts_with` with a
string pattern compares the UTF-8 bytes). -/
def processLine (rtcUrlPath : List Nat) (s : ServeState) : ServeState :=
  let str := s.line
  let s := { s with line := [] }
  if s.rtc_url_matched then
    if contentLengthBytes.isPrefixOf (str.map asciiLower) then
      { s with content_length := parseUsize (str.drop 16) }
    else if str = [] then
      { s with headers_been_read := true }
    else
      s
  else if rtcUrlPath.isPrefixOf str then
    { s with rtc_url_matched := true }
  else
    s

/-- The `\r`-skip / `\n`-dispatch / accumulate tail of the loop body.  At a
`\n`, `String::from_utf8(line.clone()).expect(..)` runs first: a non-UTF-8
line panics (`none`). -/
def lineStep (rtcUrlPath : List Nat) (b : Nat) (s : ServeState) :
    Option ServeState :=
  if b = 13 then some s
  else if b = 10 then
    if isValidUtf8 s.line then some (processLine rtcUrlPath s) else none
  else some { s with line := s.line ++ [b] }

/-- Outcome of one iteration of `serve`'s `while let Some(byte)` loop:
break out with the final `success` flag and body, continue with a new
state, or panic. -/
inductive StepOut where
  | stop : Bool → List Nat → StepOut
  | next : ServeState → StepOut
  | panicked : StepOut

/-- One iteration of `serve`'s `while let Some(byte)` loop. -/
def serveStep (rtcUrlPath : List Nat) (b : Nat) (s : ServeState) : StepOut :=
  if s.headers_been_read then
    match s.content_length with
    | some content_length =>
      let s := { s with body := s.body ++ [b] }
      if content_length ≤ s.body.length then StepOut.stop true s.body
      else
        match lineStep rtcUrlPath b s with
        | some s' => StepOut.next s'
        | none => StepOut.panicked
    | none => StepOut.stop false s.body
  else
    match lineStep rtcUrlPath b s with
    | some s' => StepOut.next s'
    | none => StepOut.panicked

/-- Translation of `serve`'s read loop over the whole inbound stream; at end-of-stream the
loop exits with `success = false`; a panic aborts the task. -/
def serveLoop (rtcUrlPath : List Nat) :
    List Nat → ServeState → ROut (Bool × List Nat)
  | [], s => ROut.ok (false, s.body)
  | b :: rest, s =>
    match serveStep rtcUrlPath b s with
    | StepOut.stop success body => ROut.ok (success, body)
    | StepOut.next s' => serveLoop rtcUrlPath rest s'
    | StepOut.panicked => ROut.panicked

/-- Translation of `serve`: the bytes written back to the TCP stream (or the panic
outcome, in which case nothing is written).  On parse success the collected
body goes to the session endpoint; an `Ok` response gets the
`Access-Control-Allow-Origin: *` header inserted and is written as header
bytes followed by the body; otherwise the fixed `RESPONSE_BAD` bytes are
written. -/
def serve (rtcUrlPath : List Nat)
    (endpoint : List Nat → Except Unit HttpResponse) (input : List Nat) :
    ROut (List Nat) :=
  match serveLoop rtcUrlPath input ServeState.init with
  | ROut.ok (true, body) =>
    match endpoint body with
    | Except.ok resp =>
      let resp' := { resp with
        headers := insertHeader resp.headers
          (strBytes "access-control-allow-origin") (strBytes "*") }
      ROut.ok (responseHeaderToVec resp' ++ resp'.body)
    | Except.error _ => ROut.ok responseBad
  | ROut.ok (false, _) => ROut.ok responseBad
  | ROut.err => ROut.err
  | ROut.panicked => ROut.panicked

/-- Check that every complete line formed from the given bytes (starting
with the given partial line; `\r` skipped, `\n` terminating) is valid UTF-8
(so the per-line decode cannot panic) and does not begin, after ASCII case
folding, with `content-length: `. -/
def noCLLine : List Nat → List Nat → Bool
  | [], _line => true
  | b :: rest, line =>
    if b = 13 then noCLLine rest line
    else if b = 10 then
      isValidUtf8 line &&
        (!(contentLengthBytes.isPrefixOf (line.map asciiLower)) && noCLLine rest [])
    else noCLLine rest (line ++ [b])

/-- Check that every complete line formed from the given bytes (starting
with the given partial line) is valid UTF-8 and does not begin with the
configured `POST /<path>` string. -/
def noMatchLine (rtcUrlPath : List Nat) : List Nat → List Nat → Bool
  | [], _line => true
  | b :: rest, line =>
    if b = 13 then noMatchLine rtcUrlPath rest line
    else if b = 10 then
      isValidUtf8 line &&
        (!(rtcUrlPath.isPrefixOf line) && noMatchLine rtcUrlPath rest [])
    else noMatchLine rtcUrlPath rest (line ++ [b])

/-- Join header lines with CRLF terminators. -/
def joinCRLF (hdrs : List (List Nat)) : List Nat :=
  (hdrs.map (fun h => h ++ [13, 10])).flatten

/-- Plain header lines: free of `\r`/`\n` bytes, valid UTF-8, not a
Content-Length header, and not blank. -/
def hdrsOk (hdrs : List (List Nat)) : Prop :=
  ∀ h ∈ hdrs, (∀ c ∈ h, c ≠ 13 ∧ c ≠ 10) ∧ isValidUtf8 h = true ∧
    ¬(contentLengthBytes.isPrefixOf (h.map asciiLower)) ∧ h ≠ []

/-- A well-formed HTTP request to the rtc endpoint: request line starting
with the configured `POST /<path>`, some headers, a Content-Length header,
more headers, a blank line, then the body. -/
def goodRequest (rtc reqtail : List Nat) (hdrs1 : List (List Nat))
    (clhdr : List Nat) (hdrs2 : List (List Nat)) (body : List Nat) :
    List Nat :=
  (rtc ++ reqtail) ++
    13 :: 10 ::
      (joinCRLF hdrs1 ++
        (clhdr ++ 13 :: 10 :: (joinCRLF hdrs2 ++ (13 :: 10 :: body))))

/-! ## Concrete instances for closed-form checks -/

/-- A concrete HMAC key instantiating the abstract signer: byte-wise
reduction mod 256 (injective on byte strings, so on encoded timestamps). -/
def witKey : HmacKey where
  sign l := l.map (fun b => b % 256)
  sign_byte := by
    intro msg b hb
    simp only [List.mem_map] at hb
    obtain ⟨a, _, rfl⟩ := hb
    exact Nat.mod_lt _ (by omega)

/-! ## Round-trip lemmas for the bit codec -/

theorem take_append_of_length {α : Type} (l r : List α) (w : Nat)
    (hw : l.length = w) : (l ++ r).take w = l := by
  subst hw
  induction l with
  | nil => rfl
  | cons a l ih => simp [ih]

theorem drop_append_of_length {α : Type} (l r : List α) (w : Nat)
    (hw : l.length = w) : (l ++ r).drop w = r := by
  subst hw
  induction l with
  | nil => rfl
  | cons a l ih => simp [ih]

theorem bitsToNat_natBits (w n : Nat) : bitsToNat (natBits w n) = n % 2 ^ w := by
  induction w generalizing n with
  | zero => simp [natBits, bitsToNat, Nat.mod_one]
  | succ w ih =>
    simp only [natBits, bitsToNat, ih]
    have h2 : (2 : Nat) ^ (w + 1) = 2 * 2 ^ w := by ring
    rw [h2, Nat.mod_mul]
    rcases Nat.mod_two_eq_zero_or_one n with h | h <;> simp [h]

theorem natBits_length (w n : Nat) : (natBits w n).length = w := by
  induction w generalizing n with
  | zero => rfl
  | succ w ih => simp [natBits, ih]

theorem readBits_exact (l rest : List Bool) (w : Nat) (hw : l.length = w) :
    readBits w (l ++ rest) = some (bitsToNat l, rest) := by
  rw [readBits, if_pos (by simp [← hw]), take_append_of_length l rest w hw,
    drop_append_of_length l rest w hw]

theorem readBits_append (w n : Nat) (rest : List Bool) :
    readBits w (natBits w n ++ rest) = some (n % 2 ^ w, rest) := by
  rw [readBits_exact _ _ _ (natBits_length w n), bitsToNat_natBits]

theorem deU64_append (t : Nat) (rest : List Bool) :
    deU64 (serU64 t ++ rest) = some (t % 2 ^ 64, rest) := by
  simpa [deU64, serU64] using readBits_append 64 t rest

theorem varintDe_varintSer (n : Nat) (rest : List Bool) :
    varintDe (varintSer n ++ rest) = some (n, rest) := by
  induction n using Nat.strong_induction_on with
  | _ n ih =>
    rw [varintSer]
    by_cases h : n < 128
    · rw [dif_pos h, List.cons_append, varintDe]
      rw [if_pos (by simp [natBits_length]), if_neg (by simp),
        take_append_of_length _ _ _ (natBits_length 7 n),
        drop_append_of_length _ _ _ (natBits_length 7 n), bitsToNat_natBits,
        Nat.mod_eq_of_lt (show n < 2 ^ 7 by omega)]
    · rw [dif_neg h, List.cons_append, List.append_assoc, varintDe]
      rw [if_pos (by simp [natBits_length]), if_pos rfl,
        take_append_of_length _ _ _ (natBits_length 7 (n % 128)),
        drop_append_of_length _ _ _ (natBits_length 7 (n % 128)), bitsToNat_natBits,
        ih (n / 128) (Nat.div_lt_self (by omega) (by omega))]
      have hm : n % 128 % 2 ^ 7 = n % 128 :=
        Nat.mod_eq_of_lt (Nat.mod_lt _ (by omega))
      have hsum : n % 128 + 128 * (n / 128) = n := by omega
      rw [hm]
      simp [hsum]

theorem deBytesFix_serBytesRaw (l : List Nat) (rest : List Bool)
    (hb : ∀ b ∈ l, b < 256) :
    deBytesFix l.length (serBytesRaw l ++ rest) = some (l, rest) := by
  induction l with
  | nil => simp [serBytesRaw, deBytesFix]
  | cons b bs ih =>
    have hblt : b < 256 := hb b (by simp)
    have ih' := ih (fun x hx => hb x (by simp [hx]))
    simp only [serBytesRaw, List.map_cons, List.flatten_cons, List.length_cons,
      deBytesFix, List.append_assoc]
    rw [readBits_append, Nat.mod_eq_of_lt (show b < 2 ^ 8 by omega)]
    simp only [serBytesRaw] at ih'
    simp [ih']

theorem deByteVec_serByteVec (l : List Nat) (rest : List Bool)
    (hb : ∀ b ∈ l, b < 256) :
    deByteVec (serByteVec l ++ rest) = some (l, rest) := by
  simp only [deByteVec, serByteVec, List.append_assoc]
  rw [varintDe_varintSer]
  exact deBytesFix_serBytesRaw l rest hb

/-- A little-endian byte list determines its value. -/
theorem leBytes_val (k n : Nat) :
    (leBytes k n).foldr (fun b acc => b + 256 * acc) 0 = n % 256 ^ k := by
  induction k generalizing n with
  | zero => simp [leBytes, Nat.mod_one]
  | succ k ih =>
    simp only [leBytes, List.foldr_cons, ih]
    have h2 : (256 : Nat) ^ (k + 1) = 256 * 256 ^ k := by ring
    rw [h2, Nat.mod_mul]

theorem u64LeBytes_inj {a b : Nat} (ha : a < 2 ^ 64) (hb : b < 2 ^ 64)
    (h : u64LeBytes a = u64LeBytes b) : a = b := by
  have hva := leBytes_val 8 a
  have hvb := leBytes_val 8 b
  have h256 : (256 : Nat) ^ 8 = 2 ^ 64 := by norm_num
  unfold u64LeBytes at h
  rw [h, hvb] at hva
  rw [h256] at hva
  rw [Nat.mod_eq_of_lt hb, Nat.mod_eq_of_lt ha] at hva
  exact hva.symm

theorem leBytes_lt (k n : Nat) : ∀ b ∈ leBytes k n, b < 256 := by
  induction k generalizing n with
  | zero => simp [leBytes]
  | succ k ih =>
    intro b hbmem
    simp only [leBytes, List.mem_cons] at hbmem
    rcases hbmem with h | h
    · omega
    · exact ih _ b h

/-! ## Association-list and cache lemmas -/

theorem find?_append {α : Type} (l₁ l₂ : List α) (p : α → Bool) :
    (l₁ ++ l₂).find? p =
      match l₁.find? p with
      | some x => some x
      | none => l₂.find? p := by
  induction l₁ with
  | nil => simp
  | cons x l ih =>
    by_cases h : p x <;> simp [List.find?_cons, h, ih]

theorem find?_none_of_any_false {α : Type} (l : List α) (p : α → Bool)
    (h : l.any p = false) : l.find? p = none := by
  induction l with
  | nil => rfl
  | cons x l ih =>
    simp only [List.any_cons, Bool.or_eq_false_iff] at h
    simp [List.find?_cons, h.1, ih h.2]

theorem find?_isSome_of_any_true {α : Type} (l : List α) (p : α → Bool)
    (h : l.any p = true) : ∃ x, l.find? p = some x ∧ p x = true := by
  induction l with
  | nil => simp at h
  | cons x l ih =>
    by_cases hx : p x
    · exact ⟨x, by simp [List.find?_cons, hx], hx⟩
    · simp only [List.any_cons, hx, Bool.false_or] at h
      obtain ⟨y, hy, hpy⟩ := ih h
      exact ⟨y, by simp [List.find?_cons, hx, hy], hpy⟩

theorem CacheMap.containsKey_insert_self (c : CacheMap) (k : Timestamp)
    (v : List Nat) : (c.insert k v).containsKey k = true := by
  simp [CacheMap.insert, CacheMap.containsKey, List.any_append]

theorem CacheMap.get?_insert_self (c : CacheMap) (k : Timestamp) (v : List Nat)
    (h : c.containsKey k = false) : (c.insert k v).get? k = some v := by
  unfold CacheMap.get? CacheMap.insert
  have hpre : ∀ l' : List (Timestamp × List Nat),
      (∀ x ∈ l', x ∈ c.entries) → l'.find? (fun p => p.1 == k) = none := by
    intro l' hsub
    apply find?_none_of_any_false
    by_contra habs
    rw [Bool.not_eq_false] at habs
    obtain ⟨x, hx, hpx⟩ := find?_isSome_of_any_true _ _ habs
    have hmem := List.mem_of_find?_eq_some hx
    unfold CacheMap.containsKey at h
    rw [List.any_eq_false] at h
    exact absurd hpx (by simpa using h x (hsub x hmem))
  rw [find?_append]
  split
  · rename_i x hx
    rcases (if hc : c.capacity ≤ c.entries.length then
        Or.inl (show _ from hc) else Or.inr hc) with hc | hc
    · rw [if_pos hc] at hx
      rw [hpre _ (fun x hx => List.mem_of_mem_drop hx)] at hx
      exact absurd hx (by simp)
    · rw [if_neg hc] at hx
      rw [hpre _ (fun x hx => hx)] at hx
      exact absurd hx (by simp)
  · simp [List.find?_cons]

theorem any_true_of_find?_some {α : Type} (l : List α) (p : α → Bool) (x : α)
    (h : l.find? p = some x) : l.any p = true := by
  induction l with
  | nil => simp [List.find?] at h
  | cons y l ih =>
    by_cases hy : p y
    · simp [List.any_cons, hy]
    · simp only [List.find?_cons, hy] at h
      simp [List.any_cons, hy, ih h]

theorem CacheMap.containsKey_of_get? (c : CacheMap) (k : Timestamp)
    (v : List Nat) (h : c.get? k = some v) : c.containsKey k = true := by
  unfold CacheMap.get? at h
  unfold CacheMap.containsKey
  cases hf : c.entries.find? (fun p => p.1 == k) with
  | none => rw [hf] at h; simp at h
  | some x => exact any_true_of_find?_some _ _ _ hf

theorem mapGet_mapInsert_self (m : AddrMap) (a : SocketAddr) (t : Timestamp) :
    mapGet (mapInsert m a t) a = some t := by
  unfold mapGet mapInsert
  by_cases h : m.any (fun p => p.1 == a)
  · rw [if_pos h]
    induction m with
    | nil => simp at h
    | cons x l ih =>
      by_cases hx : x.1 = a
      · simp [List.find?_cons, hx]
      · have h' : l.any (fun p => p.1 == a) = true := by
          simpa [hx] using h
        simpa [List.find?_cons, hx] using ih h'
  · rw [if_neg h, find?_append, find?_none_of_any_false _ _
      (by simp only [Bool.not_eq_true] at h; exact h)]
    simp [List.find?_cons]

/-! ## Handshake manager lemmas -/

/-- The digest served by `write_challenge_response` is the cache's entry for
the timestamp, which under `cacheWF` is the genuine HMAC; in all cases the
updated manager's cache holds the served digest. -/
theorem write_challenge_response_digest (self : HandshakeManager) (t : Timestamp)
    (hwf : cacheWF self) :
    ((self.write_challenge_response t).2).timestamp_digest_map.get? t =
      some (self.connection_hash_key.sign (u64LeBytes t)) := by
  by_cases hc : self.timestamp_digest_map.containsKey t
  · obtain ⟨x, hx, hpx⟩ := find?_isSome_of_any_true
      self.timestamp_digest_map.entries (fun p => p.1 == t) hc
    have hmem := List.mem_of_find?_eq_some hx
    have hx1 : x.1 = t := by simpa using hpx
    have hval := hwf x hmem
    have hget : self.timestamp_digest_map.get? t =
        some (self.connection_hash_key.sign (u64LeBytes t)) := by
      unfold CacheMap.get?
      rw [hx]
      simp [hval, hx1]
    simp [HandshakeManager.write_challenge_response, hc, hget]
  · have hins := CacheMap.get?_insert_self self.timestamp_digest_map t
      (self.connection_hash_key.sign (u64LeBytes t)) (by simpa using hc)
    simp [HandshakeManager.write_challenge_response, hc, hins]

/-- The bits written by `write_challenge_response`: header, timestamp, then
the served digest. -/
theorem write_challenge_response_writer (self : HandshakeManager) (t : Timestamp) :
    (self.write_challenge_response t).1 =
      (standardHeaderBits .serverChallengeResponse 0 0 0 ++ serU64 t) ++
        serByteVec ((((self.write_challenge_response t).2).timestamp_digest_map.get? t).getD []) := by
  unfold HandshakeManager.write_challenge_response
  by_cases hc : self.timestamp_digest_map.containsKey t <;> simp [hc]

/-- Frame: `write_challenge_response` leaves the key and the address map untouched
and touches only the digest cache. -/
theorem write_challenge_response_frame (self : HandshakeManager) (t : Timestamp) :
    ((self.write_challenge_response t).2).address_to_timestamp_map =
        self.address_to_timestamp_map ∧
      ((self.write_challenge_response t).2).connection_hash_key =
        self.connection_hash_key := by
  unfold HandshakeManager.write_challenge_response
  by_cases hc : self.timestamp_digest_map.containsKey t <;> simp [hc]

/-- After `write_challenge_response`, the cache contains the timestamp. -/
theorem write_challenge_response_contains (self : HandshakeManager) (t : Timestamp) :
    ((self.write_challenge_response t).2).timestamp_digest_map.containsKey t = true := by
  by_cases hc : self.timestamp_digest_map.containsKey t
  · simp [HandshakeManager.write_challenge_response, hc]
  · simp [HandshakeManager.write_challenge_response, hc,
      CacheMap.containsKey_insert_self]

/-- If the timestamp is already cached, `write_challenge_response` performs
no state change at all: the memoized digest is served. -/
theorem write_challenge_response_cached (self : HandshakeManager) (t : Timestamp)
    (hc : self.timestamp_digest_map.containsKey t = true) :
    (self.write_challenge_response t).2 = self ∧
      (self.write_challenge_response t).1 =
        (standardHeaderBits .serverChallengeResponse 0 0 0 ++ serU64 t) ++
          serByteVec ((self.timestamp_digest_map.get? t).getD []) := by
  unfold HandshakeManager.write_challenge_response
  simp [hc]

/-- If the timestamp is absent, `write_challenge_response` computes the HMAC
and inserts it. -/
theorem write_challenge_response_fresh (self : HandshakeManager) (t : Timestamp)
    (hc : self.timestamp_digest_map.containsKey t = false) :
    (self.write_challenge_response t).2 =
      { self with
        timestamp_digest_map :=
          self.timestamp_digest_map.insert t
            (self.connection_hash_key.sign (u64LeBytes t)) } := by
  unfold HandshakeManager.write_challenge_response
  simp [hc]

/-! ## Claim theorems: handshake manager -/

/-- C1.  `recv_validate_request` returns `Success` and binds the sender's
address to the decoded timestamp exactly when the request decodes to a
(timestamp, digest) pair whose digest verifies as the HMAC of the
timestamp's little-endian bytes (that is, when `timestamp_validate`
succeeds); otherwise it returns `Invalid` and the whole manager — the
address→timestamp map included — is unchanged. -/
theorem recv_validate_request_spec (self : HandshakeManager)
    (address : SocketAddr) (reader : List Bool) :
    match self.timestamp_validate reader with
    | some t =>
        self.recv_validate_request address reader =
          (HandshakeResult.success,
            { self with
              address_to_timestamp_map :=
                mapInsert self.address_to_timestamp_map address t }) ∧
        mapGet ((self.recv_validate_request address reader).2).address_to_timestamp_map
          address = some t
    | none =>
        self.recv_validate_request address reader = (HandshakeResult.invalid, self) := by
  cases heq : self.timestamp_validate reader with
  | none => simp [HandshakeManager.recv_validate_request, heq]
  | some t =>
    refine ⟨by simp [HandshakeManager.recv_validate_request, heq], ?_⟩
    simp [HandshakeManager.recv_validate_request, heq, mapGet_mapInsert_self]

/-- C3.  `verify_disconnect_request` returns `true` iff the request decodes
and verifies to some timestamp that is exactly the one bound to the
connection's own address in the address→timestamp map; with no entry for
that address, or a different stored timestamp, it returns `false`. -/
theorem verify_disconnect_request_spec (self : HandshakeManager)
    (connection : Connection) (reader : List Bool) :
    (self.verify_disconnect_request connection reader).1 = true ↔
      ∃ t, self.timestamp_validate reader = some t ∧
        mapGet self.address_to_timestamp_map connection.address = some t := by
  unfold HandshakeManager.verify_disconnect_request
  cases hv : self.timestamp_validate reader with
  | none => simp
  | some newT =>
    cases hm : mapGet self.address_to_timestamp_map connection.address with
    | none => simp [hm]
    | some oldT =>
      constructor
      · intro h
        have heq : oldT = newT := by simpa using h
        exact ⟨newT, rfl, by rw [heq]⟩
      · rintro ⟨t, ht, hmt⟩
        have hteq := Option.some.inj ht
        subst hteq
        have heq := Option.some.inj hmt
        rw [heq]
        exact beq_self_eq_true _

/-- C8.  `verify_disconnect_request` mutates no handshake state: the manager
(address→timestamp map, digest cache and key alike) is returned unchanged
whatever the reader contains and whatever boolean comes out. -/
theorem verify_disconnect_request_frame (self : HandshakeManager)
    (connection : Connection) (reader : List Bool) :
    (self.verify_disconnect_request connection reader).2 = self := rfl

/-- C6.  Processing a challenge request (steps 1 and 2) never touches the
address→timestamp map or the key: only the timestamp→digest cache may
change, so no per-address state exists before a successful validate. -/
theorem recv_challenge_request_no_addr_state (self : HandshakeManager)
    (reader : List Bool) (t : Timestamp) :
    (((self.recv_challenge_request reader).2).address_to_timestamp_map =
        self.address_to_timestamp_map ∧
      ((self.recv_challenge_request reader).2).connection_hash_key =
        self.connection_hash_key) ∧
    (((self.write_challenge_response t).2).address_to_timestamp_map =
        self.address_to_timestamp_map ∧
      ((self.write_challenge_response t).2).connection_hash_key =
        self.connection_hash_key) := by
  refine ⟨?_, write_challenge_response_frame self t⟩
  unfold HandshakeManager.recv_challenge_request
  cases hd : deU64 reader with
  | none => simp
  | some p =>
    have hf := write_challenge_response_frame self p.1
    simpa using hf

/-! ## HMAC round-trip (C2) and memoization (C5) -/

theorem deByteVec_serByteVec_nil (l : List Nat) (hb : ∀ b ∈ l, b < 256) :
    deByteVec (serByteVec l) = some (l, []) := by
  have := deByteVec_serByteVec l [] hb
  simpa using this

theorem map_mod256_id (l : List Nat) (h : ∀ b ∈ l, b < 256) :
    l.map (fun b => b % 256) = l := by
  induction l with
  | nil => rfl
  | cons x xs ih =>
    simp only [List.map_cons]
    rw [Nat.mod_eq_of_lt (h x (by simp)), ih (fun b hb => h b (by simp [hb]))]

theorem witKey_sign_leBytes (t : Nat) : witKey.sign (u64LeBytes t) = u64LeBytes t := by
  show (u64LeBytes t).map (fun b => b % 256) = u64LeBytes t
  exact map_mod256_id _ (leBytes_lt 8 t)

/-- C2.  The digest written by `write_challenge_response` for `t` is the
HMAC of `t`'s little-endian bytes under the instance key, and it
round-trips: `timestamp_validate` accepts `t` followed by that digest and
returns `t`; any other digest (in particular, any byte altered), and any
other timestamp with the genuine digest (given an injective HMAC), is
rejected with `none`. -/
theorem hmac_roundtrip (self : HandshakeManager) (t : Timestamp)
    (ht : t < 2 ^ 64) (hwf : cacheWF self)
    (hinj : ∀ a b : Nat, a < 2 ^ 64 → b < 2 ^ 64 →
      self.connection_hash_key.sign (u64LeBytes a) =
        self.connection_hash_key.sign (u64LeBytes b) → a = b) :
    ((self.write_challenge_response t).1 =
        (standardHeaderBits .serverChallengeResponse 0 0 0 ++ serU64 t) ++
          serByteVec (self.connection_hash_key.sign (u64LeBytes t))) ∧
    (self.timestamp_validate
        (serU64 t ++ serByteVec (self.connection_hash_key.sign (u64LeBytes t))) =
      some t) ∧
    (∀ d' : List Nat, (∀ b ∈ d', b < 256) →
      d' ≠ self.connection_hash_key.sign (u64LeBytes t) →
      self.timestamp_validate (serU64 t ++ serByteVec d') = none) ∧
    (∀ t' : Timestamp, t' < 2 ^ 64 → t' ≠ t →
      self.timestamp_validate
          (serU64 t' ++ serByteVec (self.connection_hash_key.sign (u64LeBytes t))) =
        none) := by
  have hsb : ∀ b ∈ self.connection_hash_key.sign (u64LeBytes t), b < 256 :=
    self.connection_hash_key.sign_byte (u64LeBytes t)
  refine ⟨?_, ?_, ?_, ?_⟩
  · rw [write_challenge_response_writer self t, write_challenge_response_digest self t hwf]
    rfl
  · unfold HandshakeManager.timestamp_validate
    rw [deU64_append, Nat.mod_eq_of_lt ht]
    simp [deByteVec_serByteVec_nil _ hsb, hmacVerify]
  · intro d' hd' hne
    unfold HandshakeManager.timestamp_validate
    rw [deU64_append, Nat.mod_eq_of_lt ht]
    simp [deByteVec_serByteVec_nil _ hd', hmacVerify]
    intro habs
    exact absurd habs.symm hne
  · intro t' ht' hne
    unfold HandshakeManager.timestamp_validate
    rw [deU64_append, Nat.mod_eq_of_lt ht']
    simp [deByteVec_serByteVec_nil _ hsb, hmacVerify]
    intro habs
    exact absurd (hinj t' t ht' ht habs) hne

/-- Witness for C2: the concrete key `witKey` and timestamp 3; the genuine
digest is accepted and a tampered digest `[9, 9]` is rejected. -/
theorem hmac_roundtrip_witness :
    (3 : Nat) < 2 ^ 64 ∧
    ((HandshakeManager.new witKey).timestamp_validate
        (serU64 3 ++ serByteVec (witKey.sign (u64LeBytes 3))) = some 3 ∧
      (HandshakeManager.new witKey).timestamp_validate
        (serU64 3 ++ serByteVec [9, 9]) = none) := by
  have hwf : cacheWF (HandshakeManager.new witKey) := by
    intro p hp
    simp [HandshakeManager.new, CacheMap.withCapacity] at hp
  have hinj : ∀ a b : Nat, a < 2 ^ 64 → b < 2 ^ 64 →
      (HandshakeManager.new witKey).connection_hash_key.sign (u64LeBytes a) =
        (HandshakeManager.new witKey).connection_hash_key.sign (u64LeBytes b) →
      a = b := by
    intro a b ha hb hs
    rw [show (HandshakeManager.new witKey).connection_hash_key = witKey from rfl,
      witKey_sign_leBytes, witKey_sign_leBytes] at hs
    exact u64LeBytes_inj ha hb hs
  have h := hmac_roundtrip (HandshakeManager.new witKey) 3 (by norm_num) hwf hinj
  exact ⟨by norm_num, h.2.1, h.2.2.1 [9, 9] (by decide) (by decide)⟩

theorem CacheMap.insert_capacity (c : CacheMap) (k : Timestamp) (v : List Nat) :
    (c.insert k v).capacity = c.capacity := rfl

theorem CacheMap.insert_length_le (c : CacheMap) (k : Timestamp) (v : List Nat)
    (hcap : c.capacity = 64) (hlen : c.entries.length ≤ 64) :
    (c.insert k v).entries.length ≤ 64 := by
  unfold CacheMap.insert
  by_cases h : c.capacity ≤ c.entries.length <;>
    simp [h, List.length_append, List.length_drop] <;> omega

/-- C5.  Calling `write_challenge_response` twice with the same timestamp
writes byte-identical outputs (hence byte-identical digests), and the
second call changes nothing: it serves the memoized digest.  The HMAC is
computed and inserted only when the timestamp is absent from the cache
(when present, the manager is returned untouched), and the capacity-64
cache stays bounded by 64 entries. -/
theorem write_challenge_response_memoized (self : HandshakeManager) (t : Timestamp)
    (hcap : self.timestamp_digest_map.capacity = 64)
    (hlen : self.timestamp_digest_map.entries.length ≤ 64) :
    ((self.write_challenge_response t).1 =
        ((((self.write_challenge_response t).2).write_challenge_response t).1) ∧
      ((((self.write_challenge_response t).2).write_challenge_response t).2 =
        (self.write_challenge_response t).2)) ∧
    (self.timestamp_digest_map.containsKey t = true →
      (self.write_challenge_response t).2 = self) ∧
    (self.timestamp_digest_map.containsKey t = false →
      (self.write_challenge_response t).2 =
        { self with
          timestamp_digest_map :=
            self.timestamp_digest_map.insert t
              (self.connection_hash_key.sign (u64LeBytes t)) }) ∧
    (((self.write_challenge_response t).2).timestamp_digest_map.capacity = 64 ∧
      ((self.write_challenge_response t).2).timestamp_digest_map.entries.length ≤ 64) := by
  have hcont := write_challenge_response_contains self t
  have hcached := write_challenge_response_cached
    ((self.write_challenge_response t).2) t hcont
  refine ⟨⟨?_, hcached.1⟩, ?_, ?_, ?_⟩
  · rw [write_challenge_response_writer self t, hcached.2]
  · intro hc
    unfold HandshakeManager.write_challenge_response
    simp [hc]
  · intro hc
    exact write_challenge_response_fresh self t hc
  · constructor
    · by_cases hc : self.timestamp_digest_map.containsKey t
      · simp [HandshakeManager.write_challenge_response, hc, hcap]
      · simp [HandshakeManager.write_challenge_response, hc,
          CacheMap.insert_capacity, hcap]
    · by_cases hc : self.timestamp_digest_map.containsKey t
      · simp [HandshakeManager.write_challenge_response, hc, hlen]
      · simp only [HandshakeManager.write_challenge_response, hc]
        simpa using CacheMap.insert_length_le self.timestamp_digest_map t _ hcap hlen

/-- Witness for C5: a fresh manager with the concrete key and timestamp 5;
both cache-shape hypotheses hold and the two calls write identical bytes. -/
theorem write_challenge_response_memoized_witness :
    ((HandshakeManager.new witKey).timestamp_digest_map.capacity = 64 ∧
      (HandshakeManager.new witKey).timestamp_digest_map.entries.length ≤ 64) ∧
    ((HandshakeManager.new witKey).write_challenge_response 5).1 =
      ((((HandshakeManager.new witKey).write_challenge_response 5).2).write_challenge_response 5).1 :=
  ⟨⟨rfl, by decide⟩,
    (write_challenge_response_memoized (HandshakeManager.new witKey) 5 rfl
      (by decide)).1.1⟩

/-! ## Claim theorems: client socket receivers (C9, C10) -/

/-- C9.  `IdentityReceiverImpl` never errors (`receive` always returns `Ok`
of the cell's contents), delivers at most once (after a delivery the cell is
empty, so an immediately following `receive` returns `Ok(None)`), `send`
stores the token for the next `receive`, and a second `send` before any
`receive` overwrites the first. -/
theorem identity_receiver_spec (s : IdentityReceiverImpl)
    (t1 t2 : IdentityToken) :
    ((s.receive).1 = Except.ok s.id_cell) ∧
    (((s.receive).2).id_cell = none) ∧
    ((((s.receive).2).receive).1 = Except.ok none) ∧
    (((s.send t1).receive).1 = Except.ok (some t1)) ∧
    ((((s.send t1).send t2).receive).1 = Except.ok (some t2)) := by
  cases h : s.id_cell <;>
    simp [IdentityReceiverImpl.receive, IdentityReceiverImpl.send, h]

theorem drain_take (n : Nat) :
    ∀ s : PacketReceiverImpl, PacketReceiverImpl.drain n s = s.message_queue.take n := by
  induction n with
  | zero => intro s; simp [PacketReceiverImpl.drain]
  | succ n ih =>
    intro s
    cases h : s.message_queue with
    | nil => simp [PacketReceiverImpl.drain, PacketReceiverImpl.receive, h]
    | cons p rest =>
      simp [PacketReceiverImpl.drain, PacketReceiverImpl.receive, h, ih]

/-- C10.  `PacketReceiverImpl::receive` never errors: it returns `Ok` of the
front payload (unmodified) when the shared queue is non-empty, popping it,
and `Ok(None)` on an empty queue; successive calls therefore yield the
payloads in exactly their enqueue order (`drain` returns the queue's
prefix). -/
theorem packet_receiver_spec (s : PacketReceiverImpl) (n : Nat) :
    ((s.receive).1 = Except.ok s.message_queue.head?) ∧
    (((s.receive).2).message_queue = s.message_queue.tail) ∧
    (((s.receive).2).server_addr = s.server_addr) ∧
    (PacketReceiverImpl.drain n s = s.message_queue.take n) := by
  refine ⟨?_, ?_, ?_, drain_take n s⟩ <;>
    cases h : s.message_queue <;> simp [PacketReceiverImpl.receive, h]

/-! ## Claim theorem: unordered unreliable receiver (C4) -/

/-- C4 (code bug).  On a well-formed channel chunk holding one message
(continue bit `true`, a message, then continue bit `false`), `read_messages`
hits the unconditional `todo!()` in `recv_message` and panics before any
message reaches the arrival queue, and `receive_messages` likewise panics at
its own `todo!()` instead of returning the queue: the delivery behaviour the
spec describes is unreachable. -/
theorem read_messages_panics :
    (UnorderedUnreliableReceiver.read_messages (fun r => deU64 r) 2
        UnorderedUnreliableReceiver.new
        ((true :: serU64 7) ++ [false]) = ROut.panicked) ∧
    (UnorderedUnreliableReceiver.receive_messages UnorderedUnreliableReceiver.new =
      ROut.panicked) := by
  constructor
  · decide
  · rfl


/-! ## Session front-end lemmas (C7) -/

theorem isPrefixOf_append_self (l t : List Nat) : l.isPrefixOf (l ++ t) = true := by
  induction l with
  | nil => simp [List.isPrefixOf]
  | cons c cs ih => simp [List.isPrefixOf, ih]

theorem serveLoop_plain (rtc : List Nat) (xs : List Nat) :
    ∀ (rest : List Nat) (s : ServeState), s.headers_been_read = false →
    (∀ c ∈ xs, c ≠ 13 ∧ c ≠ 10) →
    serveLoop rtc (xs ++ rest) s =
      serveLoop rtc rest { s with line := s.line ++ xs } := by
  induction xs with
  | nil => intro rest s _ _; simp
  | cons c cs ih =>
    intro rest s hs hxs
    have hc := hxs c (by simp)
    have hcs : ∀ x ∈ cs, x ≠ 13 ∧ x ≠ 10 := fun x hx => hxs x (by simp [hx])
    have h1 : serveLoop rtc (c :: (cs ++ rest)) s =
        serveLoop rtc (cs ++ rest) { s with line := s.line ++ [c] } := by
      simp [serveLoop, serveStep, hs, lineStep, hc.1, hc.2]
    rw [List.cons_append, h1, ih rest _ (by simp [hs]) hcs]
    simp

theorem serveLoop_crlf (rtc rest : List Nat) (s : ServeState)
    (hs : s.headers_been_read = false) (hv : isValidUtf8 s.line = true) :
    serveLoop rtc (13 :: 10 :: rest) s =
      serveLoop rtc rest (processLine rtc s) := by
  simp [serveLoop, serveStep, hs, lineStep, hv]

theorem serveLoop_line (rtc : List Nat) (xs rest : List Nat) (s : ServeState)
    (hs : s.headers_been_read = false)
    (hxs : ∀ c ∈ xs, c ≠ 13 ∧ c ≠ 10)
    (hv : isValidUtf8 (s.line ++ xs) = true) :
    serveLoop rtc (xs ++ 13 :: 10 :: rest) s =
      serveLoop rtc rest (processLine rtc { s with line := s.line ++ xs }) := by
  rw [serveLoop_plain rtc xs _ s hs hxs]
  exact serveLoop_crlf rtc rest _ (by simp [hs]) (by simpa using hv)

theorem processLine_noCL_fields (rtc : List Nat) (s : ServeState)
    (hrtc : s.rtc_url_matched = true)
    (hcl : contentLengthBytes.isPrefixOf (s.line.map asciiLower) = false) :
    (processLine rtc s).headers_been_read = (s.headers_been_read || s.line.isEmpty) ∧
    (processLine rtc s).content_length = s.content_length ∧
    (processLine rtc s).rtc_url_matched = true ∧
    (processLine rtc s).body = s.body ∧
    (processLine rtc s).line = [] := by
  by_cases hline : s.line = []
  · have hclb : contentLengthBytes ≠ ([] : List Nat) := by decide
    simp [processLine, hrtc, hline, hclb]
  · simp [processLine, hrtc, hcl, hline]

theorem processLine_nomatch (rtc : List Nat) (s : ServeState)
    (hrtc : s.rtc_url_matched = false)
    (hpre : rtc.isPrefixOf s.line = false) :
    processLine rtc s = { s with line := [] } := by
  simp [processLine, hrtc, hpre]

theorem serveLoop_headerLines (rtc : List Nat) (hdrs : List (List Nat)) :
    ∀ (rest : List Nat) (s : ServeState), s.headers_been_read = false →
    s.rtc_url_matched = true → s.line = [] → hdrsOk hdrs →
    serveLoop rtc (joinCRLF hdrs ++ rest) s = serveLoop rtc rest s := by
  induction hdrs with
  | nil => intro rest s _ _ _ _; simp [joinCRLF]
  | cons h hs' ih =>
    intro rest s hbr hrm hline hok
    obtain ⟨hplain, hvalid, hncl, hnonempty⟩ := hok h (by simp)
    have hok' : hdrsOk hs' := fun x hx => hok x (by simp [hx])
    have hjoin : joinCRLF (h :: hs') ++ rest =
        h ++ 13 :: 10 :: (joinCRLF hs' ++ rest) := by
      simp [joinCRLF]
    rw [hjoin, serveLoop_line rtc h _ s hbr hplain (by rw [hline]; simpa using hvalid)]
    have hncl' : contentLengthBytes.isPrefixOf (h.map asciiLower) = false := by
      rw [← Bool.not_eq_true]
      exact hncl
    have hstate : processLine rtc { s with line := s.line ++ h } = s := by
      obtain ⟨sbr, scl, srm, sbd, sln⟩ := s
      simp only at hbr hrm hline
      subst hbr hrm hline
      simp [processLine, hncl', hnonempty]
    rw [hstate, ih rest s hbr hrm hline hok']

theorem serveLoop_body (rtc : List Nat) (bs : List Nat) :
    ∀ (s : ServeState) (n : Nat), s.headers_been_read = true →
    s.rtc_url_matched = true → s.content_length = some n →
    noCLLine bs s.line = true → s.body.length + bs.length = n → bs ≠ [] →
    serveLoop rtc bs s = ROut.ok (true, s.body ++ bs) := by
  induction bs with
  | nil => intro s n _ _ _ _ _ hne; exact absurd rfl hne
  | cons b rest ih =>
    intro s n hbr hrm hcl hno hlen hne
    have hlen' : s.body.length + (rest.length + 1) = n := by
      simp only [List.length_cons] at hlen
      omega
    by_cases hrest : rest = []
    · subst hrest
      have hn : n ≤ s.body.length + 1 := by
        simp only [List.length_nil] at hlen'
        omega
      simp [serveLoop, serveStep, hbr, hcl, hn]
    · have hrlen : 1 ≤ rest.length := by
        cases rest with
        | nil => exact absurd rfl hrest
        | cons x xs => simp
      have hlt : ¬(n ≤ s.body.length + 1) := by omega
      have hlt' : ¬(n ≤ (s.body ++ [b]).length) := by
        simp only [List.length_append, List.length_cons, List.length_nil]
        omega
      have step1 : ∀ s' : ServeState,
          lineStep rtc b { s with body := s.body ++ [b] } = some s' →
          serveLoop rtc (b :: rest) s = serveLoop rtc rest s' := by
        intro s' hls
        rw [hbr, hcl] at hls
        have hstep : serveStep rtc b s = StepOut.next s' := by
          unfold serveStep
          rw [hbr, if_pos rfl, hcl]
          simp only []
          rw [if_neg hlt', hls]
        rw [serveLoop, hstep]
      by_cases hb1 : b = 13
      · subst hb1
        have hno' : noCLLine rest s.line = true := hno
        rw [step1 { s with body := s.body ++ [13] } rfl]
        have hstep := ih { s with body := s.body ++ [13] } n (by simpa using hbr)
          (by simpa using hrm) (by simpa using hcl) (by simpa using hno')
          (by simp; omega) hrest
        rw [hstep]
        simp
      · by_cases hb2 : b = 10
        · subst hb2
          have hno2 : (isValidUtf8 s.line &&
              (!(contentLengthBytes.isPrefixOf (s.line.map asciiLower)) &&
                noCLLine rest [])) = true := hno
          rw [Bool.and_eq_true, Bool.and_eq_true, Bool.not_eq_true'] at hno2
          have hls : lineStep rtc 10 { s with body := s.body ++ [10] } =
              some (processLine rtc { s with body := s.body ++ [10] }) := by
            simp [lineStep, hno2.1]
          rw [step1 _ hls]
          have hfields := processLine_noCL_fields rtc { s with body := s.body ++ [10] }
            (by simpa using hrm) (by simpa using hno2.2.1)
          have hstep := ih (processLine rtc { s with body := s.body ++ [10] }) n
            (by rw [hfields.1]; simp [hbr])
            (hfields.2.2.1)
            (by rw [hfields.2.1]; simpa using hcl)
            (by rw [hfields.2.2.2.2]; exact hno2.2.2)
            (by rw [hfields.2.2.2.1]; simp; omega)
            hrest
          rw [hstep, hfields.2.2.2.1]
          simp
        · have hno' : noCLLine rest (s.line ++ [b]) = true := by
            have hthis : noCLLine (b :: rest) s.line = true := hno
            rw [noCLLine, if_neg hb1, if_neg hb2] at hthis
            exact hthis
          have hls : lineStep rtc b { s with body := s.body ++ [b] } =
              some { s with body := s.body ++ [b], line := s.line ++ [b] } := by
            rw [lineStep, if_neg hb1, if_neg hb2]
          rw [step1 _ hls]
          have hstep := ih { s with body := s.body ++ [b], line := s.line ++ [b] } n
            (by simpa using hbr) (by simpa using hrm) (by simpa using hcl)
            (by simpa using hno') (by simp; omega) hrest
          rw [hstep]
          simp

theorem serveLoop_noCL_tail (rtc rest : List Nat) (s : ServeState)
    (hbr : s.headers_been_read = true) (hcl : s.content_length = none) :
    serveLoop rtc rest s = ROut.ok (false, s.body) := by
  cases rest <;> simp [serveLoop, serveStep, hbr, hcl]

theorem serveLoop_noMatch (rtc : List Nat) (input : List Nat) :
    ∀ s : ServeState, s.headers_been_read = false → s.rtc_url_matched = false →
    noMatchLine rtc input s.line = true →
    serveLoop rtc input s = ROut.ok (false, s.body) := by
  induction input with
  | nil => intro s _ _ _; simp [serveLoop]
  | cons b rest ih =>
    intro s hbr hrm hno
    have step1 : ∀ s' : ServeState, lineStep rtc b s = some s' →
        serveLoop rtc (b :: rest) s = serveLoop rtc rest s' := by
      intro s' hls
      simp [serveLoop, serveStep, hbr, hls]
    by_cases hb1 : b = 13
    · subst hb1
      have hno' : noMatchLine rtc rest s.line = true := hno
      rw [step1 s rfl]
      exact ih s hbr hrm hno'
    · by_cases hb2 : b = 10
      · subst hb2
        have hno2 : (isValidUtf8 s.line &&
            (!(rtc.isPrefixOf s.line) && noMatchLine rtc rest [])) = true := hno
        rw [Bool.and_eq_true, Bool.and_eq_true, Bool.not_eq_true'] at hno2
        have hls : lineStep rtc 10 s = some (processLine rtc s) := by
          simp [lineStep, hno2.1]
        have hpl := processLine_nomatch rtc s hrm hno2.2.1
        rw [step1 _ hls, hpl]
        have hstep := ih { s with line := [] } (by simpa using hbr)
          (by simpa using hrm) (by simpa using hno2.2.2)
        rw [hstep]
      · have hno' : noMatchLine rtc rest (s.line ++ [b]) = true := by
          have hthis : noMatchLine rtc (b :: rest) s.line = true := hno
          rw [noMatchLine, if_neg hb1, if_neg hb2] at hthis
          exact hthis
        have hls : lineStep rtc b s = some { s with line := s.line ++ [b] } := by
          rw [lineStep, if_neg hb1, if_neg hb2]
        rw [step1 _ hls]
        exact ih { s with line := s.line ++ [b] } (by simpa using hbr)
          (by simpa using hrm) (by simpa using hno')

theorem serveLoop_reqline (rtc reqtail tail0 : List Nat)
    (hrtcp : ∀ c ∈ rtc, c ≠ 13 ∧ c ≠ 10)
    (hreq : ∀ c ∈ reqtail, c ≠ 13 ∧ c ≠ 10)
    (hv : isValidUtf8 (rtc ++ reqtail) = true) :
    serveLoop rtc ((rtc ++ reqtail) ++ 13 :: 10 :: tail0) ServeState.init =
      serveLoop rtc tail0 ⟨false, none, true, [], []⟩ := by
  have hplain1 : ∀ c ∈ rtc ++ reqtail, c ≠ 13 ∧ c ≠ 10 := by
    intro c hc
    rcases List.mem_append.mp hc with h | h
    exacts [hrtcp c h, hreq c h]
  rw [serveLoop_line rtc (rtc ++ reqtail) tail0 ServeState.init rfl hplain1
    (by simpa [ServeState.init] using hv)]
  have hA : processLine rtc
      { ServeState.init with line := ServeState.init.line ++ (rtc ++ reqtail) } =
      (⟨false, none, true, [], []⟩ : ServeState) := by
    simp [ServeState.init, processLine, isPrefixOf_append_self]
  rw [hA]

theorem serveLoop_goodRequest (rtc reqtail clhdr body : List Nat)
    (hdrs1 hdrs2 : List (List Nat)) (n : Nat)
    (hrtcp : ∀ c ∈ rtc, c ≠ 13 ∧ c ≠ 10)
    (hreq : ∀ c ∈ reqtail, c ≠ 13 ∧ c ≠ 10)
    (hreqv : isValidUtf8 (rtc ++ reqtail) = true)
    (hh1 : hdrsOk hdrs1) (hh2 : hdrsOk hdrs2)
    (hclp : ∀ c ∈ clhdr, c ≠ 13 ∧ c ≠ 10)
    (hclv : isValidUtf8 clhdr = true)
    (hclpre : contentLengthBytes.isPrefixOf (clhdr.map asciiLower) = true)
    (hcln : parseUsize (clhdr.drop 16) = some n)
    (hbody : noCLLine body [] = true) (hblen : body.length = n) (hn : 0 < n) :
    serveLoop rtc (goodRequest rtc reqtail hdrs1 clhdr hdrs2 body) ServeState.init =
      ROut.ok (true, body) := by
  unfold goodRequest
  rw [serveLoop_reqline rtc reqtail _ hrtcp hreq hreqv]
  rw [serveLoop_headerLines rtc hdrs1 _ ⟨false, none, true, [], []⟩ rfl rfl rfl hh1]
  rw [serveLoop_line rtc clhdr _ ⟨false, none, true, [], []⟩ rfl hclp
    (by simpa using hclv)]
  have hB : processLine rtc
      { (⟨false, none, true, [], []⟩ : ServeState) with line := ([] : List Nat) ++ clhdr } =
      (⟨false, some n, true, [], []⟩ : ServeState) := by
    simp [processLine, hclpre, hcln]
  rw [hB]
  rw [serveLoop_headerLines rtc hdrs2 _ ⟨false, some n, true, [], []⟩ rfl rfl rfl hh2]
  rw [serveLoop_crlf rtc body ⟨false, some n, true, [], []⟩ rfl rfl]
  have hclb : contentLengthBytes ≠ ([] : List Nat) := by decide
  have hC : processLine rtc (⟨false, some n, true, [], []⟩ : ServeState) =
      (⟨true, some n, true, [], []⟩ : ServeState) := by
    simp [processLine, hclb]
  rw [hC]
  have hne : body ≠ [] := by
    intro h
    rw [h] at hblen
    simp at hblen
    omega
  have hb := serveLoop_body rtc body (⟨true, some n, true, [], []⟩ : ServeState) n
    rfl rfl rfl hbody (by simpa using hblen) hne
  simpa using hb

/-- C7 (amended).  For a POST request whose request line starts with the
configured rtc endpoint string, carrying a Content-Length header and a
non-empty body of that length — provided every completed line is valid
UTF-8 (otherwise the per-line `String::from_utf8` panics and nothing is
written) and no line of the body itself starts, after ASCII case folding,
with `content-length: ` — `serve` writes the session endpoint's response
with `Access-Control-Allow-Origin: *` inserted followed by the response
body; when the endpoint rejects the body, when no (valid-UTF-8) line of the
request starts with the configured string, or when the headers end with no
Content-Length header, it writes the fixed `RESPONSE_BAD` bytes; a
non-UTF-8 line panics instead of answering. -/
theorem serve_spec (rtc reqtail clhdr body rest : List Nat)
    (hdrs1 hdrs2 : List (List Nat)) (n : Nat)
    (endpoint : List Nat → Except Unit HttpResponse)
    (hrtcp : ∀ c ∈ rtc, c ≠ 13 ∧ c ≠ 10)
    (hreq : ∀ c ∈ reqtail, c ≠ 13 ∧ c ≠ 10)
    (hreqv : isValidUtf8 (rtc ++ reqtail) = true)
    (hh1 : hdrsOk hdrs1) (hh2 : hdrsOk hdrs2)
    (hclp : ∀ c ∈ clhdr, c ≠ 13 ∧ c ≠ 10)
    (hclv : isValidUtf8 clhdr = true)
    (hclpre : contentLengthBytes.isPrefixOf (clhdr.map asciiLower) = true)
    (hcln : parseUsize (clhdr.drop 16) = some n)
    (hbody : noCLLine body [] = true) (hblen : body.length = n) (hn : 0 < n) :
    (∀ resp : HttpResponse, endpoint body = Except.ok resp →
      serve rtc endpoint (goodRequest rtc reqtail hdrs1 clhdr hdrs2 body) =
        ROut.ok (responseHeaderToVec { resp with
            headers := insertHeader resp.headers
              (strBytes "access-control-allow-origin") (strBytes "*") } ++
          resp.body)) ∧
    (endpoint body = Except.error () →
      serve rtc endpoint (goodRequest rtc reqtail hdrs1 clhdr hdrs2 body) =
        ROut.ok responseBad) ∧
    (∀ input : List Nat, noMatchLine rtc input [] = true →
      serve rtc endpoint input = ROut.ok responseBad) ∧
    (serve rtc endpoint
        ((rtc ++ reqtail) ++ 13 :: 10 ::
          (joinCRLF hdrs1 ++ 13 :: 10 :: rest)) =
      ROut.ok responseBad) ∧
    (∀ rest2 : List Nat,
      serve rtc endpoint (255 :: 10 :: rest2) = ROut.panicked) := by
  have hparse := serveLoop_goodRequest rtc reqtail clhdr body hdrs1 hdrs2 n
    hrtcp hreq hreqv hh1 hh2 hclp hclv hclpre hcln hbody hblen hn
  refine ⟨?_, ?_, ?_, ?_, ?_⟩
  · intro resp hep
    unfold serve
    rw [hparse]
    simp [hep]
  · intro hep
    unfold serve
    rw [hparse]
    simp [hep]
  · intro input hnm
    unfold serve
    rw [serveLoop_noMatch rtc input ServeState.init rfl rfl hnm]
  · unfold serve
    rw [serveLoop_reqline rtc reqtail _ hrtcp hreq hreqv]
    rw [serveLoop_headerLines rtc hdrs1 _ ⟨false, none, true, [], []⟩ rfl rfl rfl hh1]
    rw [serveLoop_crlf rtc rest ⟨false, none, true, [], []⟩ rfl rfl]
    have hclb : contentLengthBytes ≠ ([] : List Nat) := by decide
    have hC0 : processLine rtc (⟨false, none, true, [], []⟩ : ServeState) =
        (⟨true, none, true, [], []⟩ : ServeState) := by
      simp [processLine, hclb]
    rw [hC0, serveLoop_noCL_tail rtc rest _ rfl rfl]
  · intro rest2
    rfl

/-- Counterexample to C7 as stated: a POST request to the configured path
with a correct Content-Length and a body the (always-accepting) endpoint
accepts, whose body however contains the line `content-length: z`; `serve`
writes `RESPONSE_BAD` rather than the endpoint's 200 response, because body
bytes also flow through the header-line parser and the unparsable
Content-Length resets the expected length. -/
theorem serve_claim_counterexample :
    (serve (strBytes "POST /rtc")
        (fun _ => Except.ok (HttpResponse.mk (strBytes "200") (strBytes "OK") []
          (strBytes "ANSWER")))
        (strBytes "POST /rtc HTTP/1.1\r\nContent-Length: 20\r\n\r\ncontent-length: z\nAB") =
      ROut.ok responseBad) ∧
    (ROut.ok responseBad : ROut (List Nat)) ≠
      ROut.ok (responseHeaderToVec (HttpResponse.mk (strBytes "200") (strBytes "OK")
          (insertHeader [] (strBytes "access-control-allow-origin") (strBytes "*"))
          (strBytes "ANSWER")) ++
        strBytes "ANSWER") := by
  constructor
  · decide
  · decide

/-- Witness for the amended C7: concrete path `POST /rtc`, body `AB` with
`Content-Length: 2`, an endpoint answering `ANSWER`; the written bytes are
the 200 response with the CORS header followed by the body. -/
theorem serve_spec_witness :
    parseUsize ((strBytes "Content-Length: 2").drop 16) = some 2 ∧
    noCLLine (strBytes "AB") [] = true ∧
    serve (strBytes "POST /rtc")
        (fun _ => Except.ok (HttpResponse.mk (strBytes "200") (strBytes "OK") []
          (strBytes "ANSWER")))
        (goodRequest (strBytes "POST /rtc") (strBytes " HTTP/1.1") []
          (strBytes "Content-Length: 2") [] (strBytes "AB")) =
      ROut.ok (responseHeaderToVec (HttpResponse.mk (strBytes "200") (strBytes "OK")
          (insertHeader [] (strBytes "access-control-allow-origin") (strBytes "*"))
          (strBytes "ANSWER")) ++
        strBytes "ANSWER") := by
  refine ⟨by decide, by decide, ?_⟩
  have h := serve_spec (strBytes "POST /rtc") (strBytes " HTTP/1.1")
    (strBytes "Content-Length: 2") (strBytes "AB") [] [] [] 2
    (fun _ => Except.ok (HttpResponse.mk (strBytes "200") (strBytes "OK") []
      (strBytes "ANSWER")))
    (by decide) (by decide) (by decide)
    (by intro x hx; simp at hx) (by intro x hx; simp at hx)
    (by decide) (by decide) (by decide) (by decide) (by decide) (by decide)
    (by decide)
  exact h.1 (HttpResponse.mk (strBytes "200") (strBytes "OK") [] (strBytes "ANSWER")) rfl

end Naia
